import Mathlib

/-!
Shallow embedding of the `jakt-lsp.nvim` C++ sources (`src/json.h`,
`src/json.cpp`, `src/rpc/base.h`, `src/rpc/rpc.cpp`, `src/main.cpp`).

Conventions of the embedding:
* `char` input bytes and `char16_t` string units are modelled as `Nat`
  (all inputs exercised by the claims are ASCII, where the two agree);
* `f64` numbers are modelled as `ℚ`: every arithmetic step on the
  concrete inputs evaluated below (small integer sums, divisions by
  powers of ten that yield dyadic rationals, small integer powers,
  floor) is exact in IEEE binary64, and the general number theorems
  carry explicit hypotheses confining them to tokens whose binary64
  evaluation is exact, so the rational model computes the program's
  values on everything stated;
* `u64` arithmetic keeps its wrap-around (`% 2 ^ 64`) where the source
  can overflow (`parse_digits`, `fraction_div`);
* moved-from values (`object::remove` reads `removed->second` after
  `std::remove_if` has shifted elements) are modelled by `movedFrom`;
* functions whose C++ counterpart can fail (optional results, or an
  uncaught `std::bad_variant_access`) return `Option`.
-/

/- The Batteries rational operations are `irreducible`, which blocks the
evaluation of the executable definitions below inside `decide`; restore
the ordinary reducibility for this development. -/
attribute [local semireducible] Rat.add Rat.mul Rat.inv Rat.sub

namespace json

/-- ASCII code units of a Lean string literal; models the bytes of a
`std::string_view` source and, for ASCII data, the `char16_t` units of a
`std::u16string`. -/
def bytes (s : String) : List Nat :=
  s.toList.map Char.toNat

/-- `json::types::value` (json.h lines 36-94): the variant over
object / array / f64 / bool / u16string / null. Objects keep their
association-list representation (`std::vector<std::pair<u16string, value>>`),
strings are lists of code units. -/
inductive value : Type where
  | vnull : value
  | vbool : Bool → value
  | vnum : ℚ → value
  | vstr : List Nat → value
  | varr : List value → value
  | vobj : List (List Nat × value) → value

mutual

/-- Decidable equality for `value` (the derive handler does not support
the nested inductive). -/
def vdec : (a b : value) → Decidable (a = b)
  | .vnull, .vnull => isTrue rfl
  | .vnull, .vbool _ => isFalse (fun h => value.noConfusion h)
  | .vnull, .vnum _ => isFalse (fun h => value.noConfusion h)
  | .vnull, .vstr _ => isFalse (fun h => value.noConfusion h)
  | .vnull, .varr _ => isFalse (fun h => value.noConfusion h)
  | .vnull, .vobj _ => isFalse (fun h => value.noConfusion h)
  | .vbool _, .vnull => isFalse (fun h => value.noConfusion h)
  | .vbool a, .vbool b =>
    match decEq a b with
    | isTrue h => isTrue (h ▸ rfl)
    | isFalse h => isFalse (fun hh => h (value.vbool.inj hh))
  | .vbool _, .vnum _ => isFalse (fun h => value.noConfusion h)
  | .vbool _, .vstr _ => isFalse (fun h => value.noConfusion h)
  | .vbool _, .varr _ => isFalse (fun h => value.noConfusion h)
  | .vbool _, .vobj _ => isFalse (fun h => value.noConfusion h)
  | .vnum _, .vnull => isFalse (fun h => value.noConfusion h)
  | .vnum _, .vbool _ => isFalse (fun h => value.noConfusion h)
  | .vnum a, .vnum b =>
    match decEq a b with
    | isTrue h => isTrue (h ▸ rfl)
    | isFalse h => isFalse (fun hh => h (value.vnum.inj hh))
  | .vnum _, .vstr _ => isFalse (fun h => value.noConfusion h)
  | .vnum _, .varr _ => isFalse (fun h => value.noConfusion h)
  | .vnum _, .vobj _ => isFalse (fun h => value.noConfusion h)
  | .vstr _, .vnull => isFalse (fun h => value.noConfusion h)
  | .vstr _, .vbool _ => isFalse (fun h => value.noConfusion h)
  | .vstr _, .vnum _ => isFalse (fun h => value.noConfusion h)
  | .vstr a, .vstr b =>
    match decEq a b with
    | isTrue h => isTrue (h ▸ rfl)
    | isFalse h => isFalse (fun hh => h (value.vstr.inj hh))
  | .vstr _, .varr _ => isFalse (fun h => value.noConfusion h)
  | .vstr _, .vobj _ => isFalse (fun h => value.noConfusion h)
  | .varr _, .vnull => isFalse (fun h => value.noConfusion h)
  | .varr _, .vbool _ => isFalse (fun h => value.noConfusion h)
  | .varr _, .vnum _ => isFalse (fun h => value.noConfusion h)
  | .varr _, .vstr _ => isFalse (fun h => value.noConfusion h)
  | .varr a, .varr b =>
    match vdecList a b with
    | isTrue h => isTrue (h ▸ rfl)
    | isFalse h => isFalse (fun hh => h (value.varr.inj hh))
  | .varr _, .vobj _ => isFalse (fun h => value.noConfusion h)
  | .vobj _, .vnull => isFalse (fun h => value.noConfusion h)
  | .vobj _, .vbool _ => isFalse (fun h => value.noConfusion h)
  | .vobj _, .vnum _ => isFalse (fun h => value.noConfusion h)
  | .vobj _, .vstr _ => isFalse (fun h => value.noConfusion h)
  | .vobj _, .varr _ => isFalse (fun h => value.noConfusion h)
  | .vobj a, .vobj b =>
    match vdecObj a b with
    | isTrue h => isTrue (h ▸ rfl)
    | isFalse h => isFalse (fun hh => h (value.vobj.inj hh))

/-- Decidable equality for lists of values. -/
def vdecList : (a b : List value) → Decidable (a = b)
  | [], [] => isTrue rfl
  | [], _ :: _ => isFalse (fun h => List.noConfusion h)
  | _ :: _, [] => isFalse (fun h => List.noConfusion h)
  | a :: as, b :: bs =>
    match vdec a b, vdecList as bs with
    | isTrue h1, isTrue h2 => isTrue (h1 ▸ h2 ▸ rfl)
    | isFalse h1, _ => isFalse (fun hh => h1 (List.head_eq_of_cons_eq hh))
    | _, isFalse h2 => isFalse (fun hh => h2 (List.tail_eq_of_cons_eq hh))

/-- Decidable equality for object association lists. -/
def vdecObj : (a b : List (List Nat × value)) → Decidable (a = b)
  | [], [] => isTrue rfl
  | [], _ :: _ => isFalse (fun h => List.noConfusion h)
  | _ :: _, [] => isFalse (fun h => List.noConfusion h)
  | (k1, v1) :: as, (k2, v2) :: bs =>
    match decEq k1 k2, vdec v1 v2, vdecObj as bs with
    | isTrue h0, isTrue h1, isTrue h2 => isTrue (h0 ▸ h1 ▸ h2 ▸ rfl)
    | isFalse h0, _, _ =>
      isFalse (fun hh => h0 (congrArg Prod.fst (List.head_eq_of_cons_eq hh)))
    | _, isFalse h1, _ =>
      isFalse (fun hh => h1 (congrArg Prod.snd (List.head_eq_of_cons_eq hh)))
    | _, _, isFalse h2 => isFalse (fun hh => h2 (List.tail_eq_of_cons_eq hh))

end

instance : DecidableEq value := vdec

/-- `value::is_null` (json.h lines 64-66). The C++ body is
`m_variant.valueless_by_exception()`, which is `false` for every variant
that holds one of the six alternatives; none of the constructors or
parser paths can produce a valueless variant, so the faithful model is
the constant `false` (and the formatter's `null` branch is dead code). -/
def is_null (_v : value) : Bool :=
  false

/-- `object::has_key` (json.cpp lines 35-39): linear scan for the key. -/
def ohasKey (o : List (List Nat × value)) (key : List Nat) : Bool :=
  o.any fun p => p.1 == key

/-- `object::set` (json.cpp lines 27-33): inserts only if the key is
absent, returns whether insertion happened, appends at the back. -/
def oset (o : List (List Nat × value)) (key : List Nat) (v : value) :
    Bool × List (List Nat × value) :=
  if ohasKey o key then (false, o) else (true, o ++ [(key, v)])

/-- Value of the first pair whose key matches (a plain association-list
lookup, used below to model whether `std::remove_if` found a match). -/
def olookup (o : List (List Nat × value)) (key : List Nat) : Option value :=
  (o.find? fun p => p.1 == key).map Prod.snd

/-- The state `std::move` leaves a `json::value` in (libstdc++/libc++):
the variant keeps its alternative; strings, arrays and objects are
emptied, the trivially copyable alternatives (null, bool, number) are
unchanged. -/
def movedFrom : value → value
  | .vstr _ => .vstr []
  | .varr _ => .varr []
  | .vobj _ => .vobj []
  | .vnull => .vnull
  | .vbool b => .vbool b
  | .vnum q => .vnum q

/-- `object::remove` (json.cpp lines 9-17): `std::remove_if` followed by
`moved = std::move(removed->second)` and a single `erase(removed)`.
`std::remove_if` shifts the kept pairs left and leaves the tail slots in
a moved-from state, so under the unique-keys invariant that
`object::set` maintains and the parser enforces:
* no match: `removed == end`, the object is unchanged, result `nullopt`;
* the match is the last pair: nothing is shifted, `removed` still holds
  the original pair, so the matched value is returned;
* otherwise every later pair is shifted one slot left and
  `removed->second` is the moved-from leftover of the **last** pair, not
  the matched value — the caller receives `movedFrom` of the last pair's
  value.
In every found case `erase(removed)` deletes the junk slot, leaving
exactly the pairs whose key differs (`filter`). Objects with duplicate
keys (not constructible through `object::set` or the parser) leave
additional moved-from slots behind in the C++ and are outside this
model. -/
def oremove (o : List (List Nat × value)) (key : List Nat) :
    Option value × List (List Nat × value) :=
  match olookup o key with
  | none => (none, o)
  | some v =>
    (if o.getLast?.map Prod.fst = some key then some v
     else some (movedFrom ((o.getLast?.map Prod.snd).getD .vnull)),
     o.filter fun p => !(p.1 == key))

/-- `value::try_integer` helper: `static_cast<i64>` on a double truncates
toward zero. -/
def i64cast (q : ℚ) : Int :=
  if 0 ≤ q then ⌊q⌋ else ⌈q⌉

/-- `value::try_integer` (json.h lines 83-92): `nullopt` unless the value
is a number whose distance above its floor is within `tolerance`;
otherwise the number cast to `i64`. -/
def try_integer (v : value) (tolerance : ℚ) : Option Int :=
  match v with
  | .vnum q => if q - (⌊q⌋ : ℤ) ≤ tolerance then some (i64cast q) else none
  | _ => none

/-- Wrap-around modulus of `u64` arithmetic. -/
def E64 : Nat := 2 ^ 64

/-- `Parser::is_whitespace` (json.h lines 115-117). -/
def isWs (c : Nat) : Bool :=
  c == 32 || c == 10 || c == 13 || c == 9

/-- `Parser::skip_whitespace` (json.cpp lines 53-57). -/
def skipws (l : List Nat) : List Nat :=
  l.dropWhile isWs

/-- Model of `current_char() == c`: `std::optional<char>` compared with a
char is `false` at end of input. -/
def ccEq (l : List Nat) (c : Nat) : Bool :=
  match l with
  | [] => false
  | x :: _ => x == c

/-- Model of `current_char() <= c`: `std::nullopt` compares less-than any
engaged optional, so the comparison is `true` at end of input. -/
def ccLe (l : List Nat) (c : Nat) : Bool :=
  match l with
  | [] => true
  | x :: _ => decide (x ≤ c)

/-- `Parser::parse_digits` (json.cpp lines 58-65), with an explicit
accumulator for the running `u64` value; returns the value, the number of
characters consumed (the caller `parse_number` computes it as
`m_index - start`) and the rest of the input. -/
def parse_digits (acc : Nat) : List Nat → Nat × Nat × List Nat
  | [] => (acc, 0, [])
  | c :: rest =>
    if 48 ≤ c ∧ c ≤ 57 then
      let r := parse_digits ((acc * 10 + (c - 48)) % E64) rest
      (r.1, r.2.1 + 1, r.2.2)
    else (acc, 0, c :: rest)

/-- `u64`-to-`i64` conversion used by `exponent = parse_digits()`. -/
def toInt64 (v : Nat) : Int :=
  if v < 2 ^ 63 then (v : Int) else (v : Int) - 2 ^ 64

/-- The fraction block of `Parser::parse_number` (json.cpp lines 83-93):
returns `(fraction, fraction_digits, rest)`; the defaults without a `.`
are `0` and `1` ("default should be 1 due to /1 == id"). -/
def parse_frac (l : List Nat) : Option (Nat × Nat × List Nat) :=
  if ccEq l 46 then
    match l.tail with
    | [] => none
    | c :: rest =>
      if c < 48 ∨ 57 < c then none
      else some (parse_digits 0 (c :: rest))
  else some (0, 1, l)

/-- The exponent block of `Parser::parse_number` (json.cpp lines 95-109).
The C++ multiplies `exponent` by `-1` when it sees `-`, but line 108 then
executes `exponent = parse_digits();`, overwriting that sign; hence the
sign characters only advance the cursor here and the resulting exponent
is the `u64` digit value converted to `i64`. Without an `e`/`E` the
default is `1` ("default exponent should be 1 due to ^1 == id"). -/
def parse_exp (l : List Nat) : Option (Int × List Nat) :=
  if ccEq l 101 || ccEq l 69 then
    let l1 := if ccEq l.tail 45 || ccEq l.tail 43 then l.tail.tail else l.tail
    match l1 with
    | [] => none
    | c :: rest =>
      if c < 48 ∨ 57 < c then none
      else
        let r := parse_digits 0 (c :: rest)
        some (toInt64 r.1, r.2.2)
  else some (1, l)

/-- `Parser::parse_number` (json.cpp lines 66-122). Note the final
evaluation (lines 111-119): `fraction_div` is `10 ^ (fraction_digits - 1)`
computed in `u64` (the loop `while (--fraction_digits) fraction_div *= 10;`
with `fraction_digits ≥ 1` wraps each multiplication, giving
`10 ^ (fraction_digits - 1) % 2 ^ 64` — the wrap is reachable from 21
fractional digits on), and the exponent is applied with `std::pow` to the
whole mantissa `integral + fraction / fraction_div`, not as a base-10
scale factor. -/
def parse_number (l : List Nat) : Option (ℚ × List Nat) :=
  let p := if ccEq l 45 then (true, l.tail) else (false, l)
  let is_negative := p.1
  let l1 := p.2
  let step : Option (Nat × List Nat) :=
    if ccEq l1 48 then some (0, l1.tail)
    else if ccLe l1 57 then
      let r := parse_digits 0 l1
      some (r.1, r.2.2)
    else none
  match step with
  | none => none
  | some (integral, l2) =>
    match parse_frac l2 with
    | none => none
    | some (fraction, fraction_digits, l3) =>
      match parse_exp l3 with
      | none => none
      | some (exponent, l4) =>
        let fraction_div : Nat := 10 ^ (fraction_digits - 1) % E64
        some ((((integral : ℚ) + (fraction : ℚ) / (fraction_div : ℚ)) ^ exponent) *
          (if is_negative then -1 else 1), l4)

/-- `Parser::from_hex` (json.h lines 118-124). -/
def from_hex (v : Nat) : Nat :=
  if 65 ≤ v ∧ v ≤ 70 then v - 65 + 10
  else if 97 ≤ v ∧ v ≤ 102 then v - 97 + 10
  else v - 48

/-- `std::isxdigit` in the C locale. -/
def isxdigit (c : Nat) : Bool :=
  decide ((48 ≤ c ∧ c ≤ 57) ∨ (65 ≤ c ∧ c ≤ 70) ∨ (97 ≤ c ∧ c ≤ 102))

/-- `Parser::parse_four_hex` (json.cpp lines 123-141): four sequential
eof-and-hex-digit checks; `value << 4 | digit` equals `value * 16 + digit`
since each digit is below 16, and four hex digits never exceed `u16`. -/
def parse_four_hex : List Nat → Option (Nat × List Nat)
  | c1 :: c2 :: c3 :: c4 :: rest =>
    if isxdigit c1 && isxdigit c2 && isxdigit c3 && isxdigit c4 then
      some (((from_hex c1 * 16 + from_hex c2) * 16 + from_hex c3) * 16 + from_hex c4, rest)
    else none
  | _ => none

/-- `Parser::parse_escape` (json.cpp lines 142-176); assumes the `\` was
just accepted. -/
def parse_escape : List Nat → Option (Nat × List Nat)
  | [] => none
  | c :: rest =>
    if c == 34 then some (34, rest)
    else if c == 92 then some (92, rest)
    else if c == 47 then some (47, rest)
    else if c == 98 then some (8, rest)
    else if c == 102 then some (12, rest)
    else if c == 110 then some (10, rest)
    else if c == 114 then some (13, rest)
    else if c == 116 then some (9, rest)
    else if c == 117 then parse_four_hex rest
    else none

/-- Loop body of `Parser::parse_string` (json.cpp lines 177-199), indexed
by fuel. Every iteration consumes at least one character, so fuel
`length + 1` (see `parse_string`) never runs out before the input does;
the `0` case is unreachable from `parse_string`. At end of input before
a closing quote the C++ `return {}` yields `nullopt`. -/
def parse_string_go : Nat → List Nat → Option (List Nat × List Nat)
  | 0, _ => none
  | _ + 1, [] => none
  | fuel + 1, c :: rest =>
    if c == 34 then some ([], rest)
    else if c == 92 then
      match parse_escape rest with
      | none => none
      | some (u, rest2) =>
        match parse_string_go fuel rest2 with
        | none => none
        | some (s, rest3) => some (u :: s, rest3)
    else
      match parse_string_go fuel rest with
      | none => none
      | some (s, rest2) => some (c :: s, rest2)

/-- `Parser::parse_string`; assumes the opening `"` has been accepted. -/
def parse_string (l : List Nat) : Option (List Nat × List Nat) :=
  parse_string_go (l.length + 1) l

mutual

/-- `Parser::parse_value` (json.cpp lines 255-292). The fuel bounds the
mutual recursion; every `parse_value`/`parse_array`/`parse_object` step
either consumes a character before recursing or parses an element that
consumes at least one, so `2 * length + 2` fuel (see `parse_single`)
never runs out. -/
def parse_value : Nat → List Nat → Option (value × List Nat)
  | 0, _ => none
  | fuel + 1, l =>
    match skipws l with
    | [] => none
    | c :: rest =>
      let step : Option (value × List Nat) :=
        if (c :: rest).take 5 = bytes ("false") then
          some (.vbool false, (c :: rest).drop 5)
        else if (c :: rest).take 4 = bytes ("true") then
          some (.vbool true, (c :: rest).drop 4)
        else if (c :: rest).take 4 = bytes ("null") then
          some (.vnull, (c :: rest).drop 4)
        else if c = 45 ∨ (48 ≤ c ∧ c ≤ 57) then
          match parse_number (c :: rest) with
          | none => none
          | some (q, r) => some (.vnum q, r)
        else if c = 123 then
          match parse_object fuel [] rest with
          | none => none
          | some (o, r) => some (.vobj o, r)
        else if c = 91 then
          match parse_array fuel rest with
          | none => none
          | some (a, r) => some (.varr a, r)
        else if c = 34 then
          match parse_string rest with
          | none => none
          | some (s, r) => some (.vstr s, r)
        else none
      match step with
      | none => none
      | some (v, r) => some (v, skipws r)

/-- `Parser::parse_array` (json.cpp lines 200-220); assumes the `[` has
been accepted. Each recursive call models one more iteration of the
`while` loop after a `,`; re-checking for `]` at the loop head is what
accepts a trailing comma. -/
def parse_array : Nat → List Nat → Option (List value × List Nat)
  | 0, _ => none
  | fuel + 1, l =>
    match skipws l with
    | [] => none
    | c :: rest =>
      if c = 93 then some ([], rest)
      else
        match parse_value fuel (c :: rest) with
        | none => none
        | some (v, l2) =>
          if ccEq l2 44 then
            match parse_array fuel l2.tail with
            | none => none
            | some (vs, l3) => some (v :: vs, l3)
          else
            match l2 with
            | d :: l3 => if d = 93 then some ([v], l3) else none
            | [] => none

/-- `Parser::parse_object` (json.cpp lines 221-254); assumes the `{` has
been accepted. `kvpairs` threads the object built so far, because
`kvpairs.set` (line 239) fails—and the whole parse fails—on a duplicate
key. The break path repeats `skip_whitespace` before the `}` check
(line 246). -/
def parse_object : Nat → List (List Nat × value) → List Nat →
    Option (List (List Nat × value) × List Nat)
  | 0, _, _ => none
  | fuel + 1, kvpairs, l =>
    match skipws l with
    | [] => none
    | c :: rest =>
      if c = 125 then some (kvpairs, rest)
      else if c ≠ 34 then none
      else
        match parse_string rest with
        | none => none
        | some (key, l2) =>
          match skipws l2 with
          | [] => none
          | d :: l3 =>
            if d ≠ 58 then none
            else
              match parse_value fuel l3 with
              | none => none
              | some (v, l4) =>
                let s := oset kvpairs key v
                if s.1 = false then none
                else if ccEq l4 44 then
                  parse_object fuel s.2 l4.tail
                else
                  match skipws l4 with
                  | e :: l5 => if e = 125 then some (s.2, l5) else none
                  | [] => none

end

/-- `json::parse_single` (json.cpp lines 293-296). The C++ returns
`parse_value()`'s result and ignores any unconsumed input. -/
def parse_single (source : String) : Option value :=
  (parse_value (2 * (bytes source).length + 2) (bytes source)).map Prod.fst

/-- `std::iswprint` restricted to the printable ASCII range, the behaviour
of the default "C" locale the program runs in. -/
def is_printable (c : Nat) : Bool :=
  decide (32 ≤ c ∧ c ≤ 126)

/-- Decimal digits of a natural number (what `format_to(.., "\x7b\x7d", n)`
prints for an unsigned integer), indexed by fuel so it evaluates; fuel
`n + 1` always suffices. -/
def natToDecGo : Nat → Nat → List Nat
  | 0, _ => []
  | fuel + 1, n =>
    if n < 10 then [48 + n] else natToDecGo fuel (n / 10) ++ [48 + n % 10]

/-- Decimal rendering of a natural number as ASCII digit codes. -/
def natToDec (n : Nat) : List Nat :=
  natToDecGo (n + 1) n

/-- Per-character output of `fmt::formatter<debug_u16_string>::format`
(json.h lines 166-201): named escapes for the quote, backslash, slash and
control characters `\b \f \n \r \t`; a printable character is written as
`static_cast<char>(value)`; anything else goes through
`format_to(.., "\\u\x7b\x7d\x7b\x7d\x7b\x7d\x7b\x7d", nibbles >> 24,
(nibbles >> 16) & 0xf, (nibbles >> 8) & 0xf, nibbles & 0xf)`, i.e. four
numbers printed in decimal, with shift amounts 24/16/8/0 applied to the
16-bit value. -/
def escape_char (c : Nat) : List Nat :=
  if c = 34 then [92, 34]
  else if c = 92 then [92, 92]
  else if c = 47 then [92, 47]
  else if c = 8 then [92, 98]
  else if c = 12 then [92, 102]
  else if c = 10 then [92, 110]
  else if c = 13 then [92, 114]
  else if c = 9 then [92, 116]
  else if is_printable c then [c % 256]
  else
    [92, 117] ++ natToDec (c >>> 24) ++ natToDec ((c >>> 16) &&& 15) ++
      natToDec ((c >>> 8) &&& 15) ++ natToDec (c &&& 15)

/-- `fmt::formatter<debug_u16_string>::format` (json.h lines 154-205):
a double-quoted, escaped string, also used for object keys. -/
def dump_string (s : List Nat) : List Nat :=
  34 :: (s.map escape_char).flatten ++ [34]

mutual

/-- `fmt::formatter<json::value>::format` (json.h lines 206-253),
parameterised by `fmtNum`, the platform's double-to-text conversion
(floating-point formatting is outside this model; no claim that is
settled here depends on it). The `is_null()` test on line 217 is
`valueless_by_exception()` and therefore never fires (see `is_null`), so
a `null` value falls through every kind test to `v.as_bool()` on
line 251, which raises `std::bad_variant_access`: modelled as `none`. -/
def serialize (fmtNum : ℚ → List Nat) : value → Option (List Nat)
  | .vnull => none
  | .varr es =>
    match serialize_arr fmtNum es with
    | none => none
    | some parts => some (91 :: List.intercalate [44] parts ++ [93])
  | .vobj ps =>
    match serialize_obj fmtNum ps with
    | none => none
    | some parts => some (123 :: List.intercalate [44] parts ++ [125])
  | .vstr s => some (dump_string s)
  | .vnum q => some (fmtNum q)
  | .vbool b => some (bytes (if b then "true" else "false"))

/-- Array elements of the formatter: first element bare, the rest behind
commas (modelled as an intercalated list). -/
def serialize_arr (fmtNum : ℚ → List Nat) : List value → Option (List (List Nat))
  | [] => some []
  | v :: vs =>
    match serialize fmtNum v, serialize_arr fmtNum vs with
    | some a, some b => some (a :: b)
    | _, _ => none

/-- Object entries of the formatter: `key:value` pieces, the key rendered
with `dump_string`. -/
def serialize_obj (fmtNum : ℚ → List Nat) :
    List (List Nat × value) → Option (List (List Nat))
  | [] => some []
  | (k, v) :: ps =>
    match serialize fmtNum v, serialize_obj fmtNum ps with
    | some a, some b => some ((dump_string k ++ 58 :: a) :: b)
    | _, _ => none

end

end json

namespace rpc

open json

/-- `INT_CONVERSION_TOLERANCE` (rpc.cpp line 3): `0.000000001`. -/
def INT_CONVERSION_TOLERANCE : ℚ := 1 / 1000000000

/-- `Message::validate` (rpc.cpp lines 6-15): requires an object, removes
`"jsonrpc"` and checks it is exactly the string `"2.0"`. The C++ mutates
the object and returns `bool`; the model returns the mutated entry list
on success. -/
def Message.validate (v : value) : Option (List (List Nat × value)) :=
  match v with
  | .vobj o =>
    let r := oremove o (bytes ("jsonrpc"))
    match r.1 with
    | some (.vstr s) => if s = bytes ("2.0") then some r.2 else none
    | _ => none
  | _ => none

/-- `rpc::base::RequestMessage` (base.h lines 14-27). -/
structure RequestMessage where
  id : Sum (List Nat) Int
  method : List Nat
  params : Option value
deriving DecidableEq

/-- `RequestMessage::identify` (rpc.cpp lines 21-23): an object that has
an `"id"` key; the `"method"` key is not inspected (base.h line 24
documents exactly this: "RequestMessage has an \"id\", which is what this
method checks"). -/
def RequestMessage.identify (v : value) : Bool :=
  match v with
  | .vobj o => ohasKey o (bytes ("id"))
  | _ => false

/-- The second, independent `rpc::base::RequestMessage::identify` compiled
into `main.cpp` (lines 152-157): it additionally requires a `"method"`
key. -/
def RequestMessage.identify_main (v : value) : Bool :=
  match v with
  | .vobj o => ohasKey o (bytes ("id")) && ohasKey o (bytes ("method"))
  | _ => false

/-- `RequestMessage::validate` (rpc.cpp lines 25-67): `Message::validate`,
then consume `"id"` (a string as-is, or a number through `try_integer`
with `INT_CONVERSION_TOLERANCE`), then `"method"` (must be a string),
then the optional `"params"` (must be array or object when present). -/
def RequestMessage.validate (v : value) : Option RequestMessage :=
  match Message.validate v with
  | none => none
  | some o =>
    let rid := oremove o (bytes ("id"))
    match rid.1 with
    | none => none
    | some idv =>
      let theId : Option (Sum (List Nat) Int) :=
        match idv with
        | .vstr s => some (Sum.inl s)
        | _ => (try_integer idv INT_CONVERSION_TOLERANCE).map Sum.inr
      match theId with
      | none => none
      | some theId =>
        let rm := oremove rid.2 (bytes ("method"))
        match rm.1 with
        | some (.vstr ms) =>
          let rp := oremove rm.2 (bytes ("params"))
          match rp.1 with
          | none => some ⟨theId, ms, none⟩
          | some (.varr a) => some ⟨theId, ms, some (.varr a)⟩
          | some (.vobj ob) => some ⟨theId, ms, some (.vobj ob)⟩
          | some _ => none
        | _ => none

end rpc

namespace json

/-- ASCII code of a decimal digit value. -/
def digitChar (d : Nat) : Nat := 48 + d

/-- Numeric value of a digit list, most significant first. -/
def digitsVal (ds : List Nat) : Nat :=
  ds.foldl (fun a d => a * 10 + d) 0

/-- Text of an optional exponent sign: `some true` = `-`,
`some false` = `+`, `none` = absent. -/
def sgRender : Option Bool → List Nat
  | none => []
  | some true => [45]
  | some false => [43]

/-- Text of the fractional part of a numeric token. -/
def fracRender : Option (List Nat) → List Nat
  | none => []
  | some fs => 46 :: fs.map digitChar

/-- Text of the exponent part of a numeric token. -/
def exRender : Option (Option Bool × List Nat) → List Nat
  | none => []
  | some (sg, es) => 101 :: (sgRender sg ++ es.map digitChar)

/-- Text of a numeric token assembled from its grammatical parts: sign,
integral digits, optional fractional digits, optional exponent with
optional sign. -/
def renderNum (neg : Bool) (ds : List Nat) (frac : Option (List Nat))
    (ex : Option (Option Bool × List Nat)) : List Nat :=
  (if neg then [45] else []) ++ ds.map digitChar ++ fracRender frac ++ exRender ex

/-- The `fraction` variable of `parse_number` for a token with the given
fractional part. -/
def fracV : Option (List Nat) → Nat
  | none => 0
  | some fs => digitsVal fs

/-- The `fraction_digits` variable of `parse_number` for a token with the
given fractional part. -/
def fracD : Option (List Nat) → Nat
  | none => 1
  | some fs => fs.length

/-- The `exponent` variable of `parse_number` for a token with the given
exponent part: the digit value, regardless of the sign character
(line 108 of json.cpp overwrites the sign). -/
def expV : Option (Option Bool × List Nat) → Int
  | none => 1
  | some (_, es) => (digitsVal es : Int)

end json

namespace json

theorem foldl_mod_congr (ds : List Nat) (a b : Nat) (h : a % E64 = b % E64) :
    (ds.foldl (fun x d => x * 10 + d) a) % E64 =
      (ds.foldl (fun x d => x * 10 + d) b) % E64 := by
  induction ds generalizing a b with
  | nil => exact h
  | cons d ds ih =>
    simp only [List.foldl_cons]
    exact ih _ _ (Nat.ModEq.add_right d (Nat.ModEq.mul_right 10 h))

theorem foldE_eq (ds : List Nat) (acc : Nat) (hacc : acc < E64) :
    ds.foldl (fun a d => (a * 10 + d) % E64) acc =
      (ds.foldl (fun a d => a * 10 + d) acc) % E64 := by
  induction ds generalizing acc with
  | nil => simp [Nat.mod_eq_of_lt hacc]
  | cons d ds ih =>
    simp only [List.foldl_cons]
    rw [ih _ (Nat.mod_lt _ (by decide))]
    exact foldl_mod_congr ds _ _ (Nat.mod_mod_of_dvd _ dvd_rfl)

theorem parse_digits_render (ds rest : List Nat) (acc : Nat)
    (hds : ∀ d ∈ ds, d < 10) (hrest : ∀ c ∈ rest.head?, c < 48 ∨ 57 < c) :
    parse_digits acc (ds.map digitChar ++ rest) =
      (ds.foldl (fun a d => (a * 10 + d) % E64) acc, ds.length, rest) := by
  induction ds generalizing acc with
  | nil =>
    cases rest with
    | nil => simp [parse_digits]
    | cons c r =>
      have hc := hrest c (by simp)
      simp only [List.map_nil, List.nil_append, parse_digits, List.foldl_nil,
        List.length_nil]
      rw [if_neg (by omega)]
  | cons d ds ih =>
    have hd : d < 10 := hds d (by simp)
    simp only [List.map_cons, List.cons_append, parse_digits, digitChar]
    rw [if_pos (by omega : 48 ≤ 48 + d ∧ 48 + d ≤ 57)]
    have h48 : 48 + d - 48 = d := by omega
    simp only [List.append_eq]
    rw [h48, ih _ (fun x hx => hds x (List.mem_cons_of_mem _ hx))]
    simp [List.foldl_cons]

theorem parse_digits_val (ds rest : List Nat)
    (hds : ∀ d ∈ ds, d < 10) (hval : digitsVal ds < E64)
    (hrest : ∀ c ∈ rest.head?, c < 48 ∨ 57 < c) :
    parse_digits 0 (ds.map digitChar ++ rest) = (digitsVal ds, ds.length, rest) := by
  rw [parse_digits_render ds rest 0 hds hrest, foldE_eq ds 0 (by decide)]
  have hdv : ds.foldl (fun a d => a * 10 + d) 0 = digitsVal ds := rfl
  rw [hdv, Nat.mod_eq_of_lt hval]

theorem parse_frac_no_dot (l : List Nat) (h : ccEq l 46 = false) :
    parse_frac l = some (0, 1, l) := by
  simp [parse_frac, h]

theorem parse_frac_render (fs rest : List Nat) (hne : fs ≠ [])
    (hds : ∀ d ∈ fs, d < 10) (hval : digitsVal fs < E64)
    (hrest : ∀ c ∈ rest.head?, c < 48 ∨ 57 < c) :
    parse_frac (46 :: (fs.map digitChar ++ rest)) =
      some (digitsVal fs, fs.length, rest) := by
  obtain ⟨f, fs2, rfl⟩ := List.exists_cons_of_ne_nil hne
  have hf : f < 10 := hds f (by simp)
  have hdig : ¬(48 + f < 48 ∨ 57 < 48 + f) := by omega
  have hf57 : 48 + f ≤ 57 := by omega
  have hpd := parse_digits_val (f :: fs2) rest hds hval hrest
  simp only [List.map_cons, List.cons_append, digitChar] at hpd
  simp [parse_frac, ccEq, hdig, hf57, hpd, digitChar]

theorem parse_exp_no_e (l : List Nat) (h1 : ccEq l 101 = false)
    (h2 : ccEq l 69 = false) : parse_exp l = some (1, l) := by
  simp [parse_exp, h1, h2]

theorem parse_exp_render (sg : Option Bool) (es rest : List Nat) (hne : es ≠ [])
    (hds : ∀ d ∈ es, d < 10) (hval : digitsVal es < 2 ^ 63)
    (hrest : ∀ c ∈ rest.head?, c < 48 ∨ 57 < c) :
    parse_exp (101 :: (sgRender sg ++ (es.map digitChar ++ rest))) =
      some ((digitsVal es : Int), rest) := by
  obtain ⟨e, es2, rfl⟩ := List.exists_cons_of_ne_nil hne
  have he : e < 10 := hds e (by simp)
  have hpd := parse_digits_val (e :: es2) rest hds (by
    have h2 : (2 : Nat) ^ 63 < E64 := by decide
    omega) hrest
  simp only [List.map_cons, List.cons_append, digitChar] at hpd
  have htoi : toInt64 (digitsVal (e :: es2)) = (digitsVal (e :: es2) : Int) := by
    unfold toInt64
    rw [if_pos hval]
  have hdig : ¬(48 + e < 48 ∨ 57 < 48 + e) := by omega
  have he57 : 48 + e ≤ 57 := by omega
  have h45 : ((48 + e) == 45) = false := by
    rw [beq_eq_false_iff_ne]
    omega
  have h43 : ((48 + e) == 43) = false := by
    rw [beq_eq_false_iff_ne]
    omega
  rcases sg with _ | b
  · simp only [sgRender, List.nil_append]
    simp [parse_exp, ccEq, h45, h43, hdig, he57, hpd, htoi, digitChar]
  · cases b
    · simp only [sgRender]
      simp [parse_exp, ccEq, hdig, he57, hpd, htoi, digitChar]
    · simp only [sgRender]
      simp [parse_exp, ccEq, hdig, he57, hpd, htoi, digitChar]

end json

namespace json

theorem parse_number_render (neg : Bool) (ds : List Nat)
    (frac : Option (List Nat)) (ex : Option (Option Bool × List Nat))
    (hds : ∀ d ∈ ds, d < 10) (hne : ds ≠ [])
    (hlead : ds = [0] ∨ ds.headD 0 ≠ 0)
    (hval : digitsVal ds < E64)
    (hfrac : ∀ fs, frac = some fs → fs ≠ [] ∧ (∀ d ∈ fs, d < 10) ∧ digitsVal fs < E64)
    (hex : ∀ sg es, ex = some (sg, es) →
      es ≠ [] ∧ (∀ d ∈ es, d < 10) ∧ digitsVal es < 2 ^ 63) :
    parse_number (renderNum neg ds frac ex) =
      some ((((digitsVal ds : ℚ) + (fracV frac : ℚ) /
        ((10 ^ (fracD frac - 1) % E64 : ℕ) : ℚ)) ^
        expV ex) * (if neg then -1 else 1), []) := by
  have htail : ∀ c ∈ (fracRender frac ++ exRender ex).head?, c < 48 ∨ 57 < c := by
    rcases frac with _ | fs <;> rcases ex with _ | ⟨sg, es⟩ <;>
      simp [fracRender, exRender]
  have hfrace : parse_frac (fracRender frac ++ exRender ex) =
      some (fracV frac, fracD frac, exRender ex) := by
    rcases frac with _ | fs
    · have hnodot : ccEq (fracRender none ++ exRender ex) 46 = false := by
        rcases ex with _ | ⟨sg, es⟩ <;> simp [fracRender, exRender, ccEq]
      rw [parse_frac_no_dot _ hnodot]
      simp [fracV, fracD, fracRender]
    · obtain ⟨hne2, hds2, hval2⟩ := hfrac fs rfl
      have hrest2 : ∀ c ∈ (exRender ex).head?, c < 48 ∨ 57 < c := by
        rcases ex with _ | ⟨sg, es⟩ <;> simp [exRender]
      have hh := parse_frac_render fs (exRender ex) hne2 hds2 hval2 hrest2
      simp only [fracRender, List.cons_append] at hh ⊢
      rw [hh]
      simp [fracV, fracD]
  have hexpe : parse_exp (exRender ex) = some (expV ex, []) := by
    rcases ex with _ | ⟨sg, es⟩
    · exact parse_exp_no_e [] rfl rfl
    · obtain ⟨hne3, hds3, hval3⟩ := hex sg es rfl
      have hh := parse_exp_render sg es [] hne3 hds3 hval3 (by simp)
      simpa [exRender, expV] using hh
  have hpd : parse_digits 0 (ds.map digitChar ++ (fracRender frac ++ exRender ex)) =
      (digitsVal ds, ds.length, fracRender frac ++ exRender ex) :=
    parse_digits_val ds _ hds hval htail
  rcases hlead with h0 | hh
  · subst h0
    cases neg
    · simp [renderNum, parse_number, ccEq, digitChar, hfrace, hexpe, digitsVal]
    · simp [renderNum, parse_number, ccEq, digitChar, hfrace, hexpe, digitsVal]
  · obtain ⟨d0, ds2, rfl⟩ := List.exists_cons_of_ne_nil hne
    have hd0 : d0 < 10 := hds d0 (by simp)
    have hd0ne : d0 ≠ 0 := by simpa using hh
    have hcc48 : ((48 + d0) == 48) = false := by
      rw [beq_eq_false_iff_ne]
      omega
    have hcc45 : ((48 + d0) == 45) = false := by
      rw [beq_eq_false_iff_ne]
      omega
    have h57 : 48 + d0 ≤ 57 := by omega
    simp only [List.map_cons, List.cons_append, digitChar] at hpd
    cases neg
    · simp [renderNum, parse_number, ccEq, ccLe, digitChar, hcc48, hcc45, h57,
        hpd, hfrace, hexpe]
    · simp [renderNum, parse_number, ccEq, ccLe, digitChar, hcc48, hcc45, h57,
        hpd, hfrace, hexpe]

end json

namespace json

theorem ohasKey_iff_mem (o : List (List Nat × value)) (k : List Nat) :
    ohasKey o k = true ↔ k ∈ o.map Prod.fst := by
  simp only [ohasKey, List.any_eq_true, List.mem_map, beq_iff_eq]

end json

/-- Claim C1 (code evaluated at the failing input): the claim describes
the intended behaviour of `RequestMessage::validate`, but `object::remove`
returns `std::move(removed->second)` after `std::remove_if` has shifted
the kept pairs, so whenever the removed key is not the last entry the
caller receives the moved-from leftover of the last pair — practically an
emptied string — instead of the stored value. On the canonical parsed
object (`jsonrpc` first) `Message::validate` therefore compares the
emptied leftover of `"initialize"` against `"2.0"` and fails, and
`validate` returns no value instead of the claimed id `1` / method
`"initialize"` message. Dually, an object with `"jsonrpc"` last and a
non-near-integral id `1.5` is accepted with an empty *string* id (the
junk leftover of the `"method"` value) instead of being rejected. -/
theorem claim_C1_request_validate_bug :
    json.parse_single ("\x7b\"jsonrpc\":\"2.0\",\"id\":1,\"method\":\"initialize\"\x7d") =
      some (.vobj [(json.bytes ("jsonrpc"), .vstr (json.bytes ("2.0"))),
        (json.bytes ("id"), .vnum 1),
        (json.bytes ("method"), .vstr (json.bytes ("initialize")))]) ∧
    rpc.Message.validate
        (.vobj [(json.bytes ("jsonrpc"), .vstr (json.bytes ("2.0"))),
          (json.bytes ("id"), .vnum 1),
          (json.bytes ("method"), .vstr (json.bytes ("initialize")))]) = none ∧
    rpc.RequestMessage.validate
        (.vobj [(json.bytes ("jsonrpc"), .vstr (json.bytes ("2.0"))),
          (json.bytes ("id"), .vnum 1),
          (json.bytes ("method"), .vstr (json.bytes ("initialize")))]) = none ∧
    rpc.RequestMessage.validate
        (.vobj [(json.bytes ("id"), .vnum (3 / 2)),
          (json.bytes ("method"), .vstr (json.bytes ("m"))),
          (json.bytes ("jsonrpc"), .vstr (json.bytes ("2.0")))]) =
      some ⟨Sum.inl [], json.bytes ("m"), none⟩ :=
  ⟨by decide, by decide, by decide, by decide⟩

/-- Claim C2 counterexample: the `RequestMessage::identify` of
`src/rpc/rpc.cpp` returns `true` on an object that has an `"id"` key but
no `"method"` key, so "true iff the object has both keys" is false at
this input. -/
theorem claim_C2_identify_counterexample :
    rpc.RequestMessage.identify (.vobj [(json.bytes ("id"), .vnull)]) = true ∧
    json.ohasKey [(json.bytes ("id"), .vnull)] (json.bytes ("method")) = false := by
  decide

/-- Claim C2 (amended): the library `identify` of `src/rpc/rpc.cpp`
returns `true` iff the value is an object with an `"id"` key (it never
inspects `"method"`), while the second copy compiled into `main.cpp`
requires both `"id"` and `"method"`; both are read-only predicates (they
take the value by const reference and are modelled as pure functions, so
neither removes any key). -/
theorem claim_C2_identify_amended :
    ∀ v : json.value,
      (rpc.RequestMessage.identify v = true ↔
        ∃ o, v = .vobj o ∧ json.ohasKey o (json.bytes ("id")) = true) ∧
      (rpc.RequestMessage.identify_main v = true ↔
        ∃ o, v = .vobj o ∧ json.ohasKey o (json.bytes ("id")) = true ∧
          json.ohasKey o (json.bytes ("method")) = true) := by
  intro v
  cases v <;>
    simp [rpc.RequestMessage.identify, rpc.RequestMessage.identify_main]

/-- Claim C7: the parser accepts empty containers and trailing commas:
`{}` is the empty object, `[]` the empty array, `[1,2,]` a two-element
array and `{"a":1,}` a one-entry object. -/
theorem claim_C7_trailing_commas :
    json.parse_single ("\x7b\x7d") = some (.vobj []) ∧
    json.parse_single ("[]") = some (.varr []) ∧
    json.parse_single ("[1,2,]") = some (.varr [.vnum 1, .vnum 2]) ∧
    json.parse_single ("\x7b\"a\":1,\x7d") =
      some (.vobj [(json.bytes ("a"), .vnum 1)]) :=
  ⟨by decide, by decide, by decide, by decide⟩

/-- Claim C8: `object::set` and `object::remove` keep keys unique: a
second `set` of the same key fails and changes nothing, `set` succeeds
exactly when the key was absent, and both operations preserve
distinctness of the stored keys. -/
theorem claim_C8_object_key_invariant :
    (∀ o k (v1 : json.value), (json.oset o k v1).1 = true →
      ∀ v2, json.oset (json.oset o k v1).2 k v2 = (false, (json.oset o k v1).2)) ∧
    (∀ o k (v : json.value), (json.oset o k v).1 = true ↔ json.ohasKey o k = false) ∧
    (∀ o k (v : json.value), (o.map Prod.fst).Nodup →
      (((json.oset o k v).2).map Prod.fst).Nodup) ∧
    (∀ (o : List (List Nat × json.value)) k, (o.map Prod.fst).Nodup →
      (((json.oremove o k).2).map Prod.fst).Nodup) := by
  refine ⟨?_, ?_, ?_, ?_⟩
  · intro o k v1 h v2
    cases hk : json.ohasKey o k with
    | true => simp [json.oset, hk] at h
    | false =>
      have h2 : json.ohasKey (o ++ [(k, v1)]) k = true := by
        simp [json.ohasKey, List.any_append]
      simp [json.oset, hk, h2]
  · intro o k v
    cases hk : json.ohasKey o k <;> simp [json.oset, hk]
  · intro o k v hnd
    cases hk : json.ohasKey o k with
    | true => simpa [json.oset, hk] using hnd
    | false =>
      have hkm : k ∉ o.map Prod.fst := fun hm => by
        rw [(json.ohasKey_iff_mem o k).mpr hm] at hk
        cases hk
      simp [json.oset, hk, List.nodup_append, hnd, hkm]
  · intro o k hnd
    cases hlk : json.olookup o k with
    | none => simpa [json.oremove, hlk] using hnd
    | some v =>
      simp only [json.oremove, hlk]
      exact ((List.filter_sublist o).map Prod.fst).nodup hnd

/-- Claim C8 witness: the clauses applied to concrete objects. -/
theorem claim_C8_object_key_invariant_witness :
    json.oset (json.oset [] (json.bytes ("a")) .vnull).2 (json.bytes ("a"))
        (.vbool true) = (false, (json.oset [] (json.bytes ("a")) .vnull).2) ∧
    ((json.oset [(json.bytes ("a"), .vnull)] (json.bytes ("b")) .vnull).2.map
        Prod.fst).Nodup ∧
    ((json.oremove [(json.bytes ("a"), .vnull), (json.bytes ("b"), .vnull)]
        (json.bytes ("a"))).2.map Prod.fst).Nodup :=
  ⟨claim_C8_object_key_invariant.1 [] _ _ (by decide) _,
   claim_C8_object_key_invariant.2.2.1 _ _ _ (by decide),
   claim_C8_object_key_invariant.2.2.2 _ _ (by decide)⟩

/-- Claim C4 (code evaluated at the failing input): serializing the
one-character string U+001F yields the text `"\u00015"` (the broken
nibble extraction of the escape renderer), and parsing that text back
yields the two-character string `[0x01, '5']`, not the original
value; no floating point is involved. -/
theorem claim_C4_roundtrip_failing_input :
    (∀ fmtNum, json.serialize fmtNum (json.value.vstr [31]) =
      some (json.bytes ("\"\\u00015\""))) ∧
    json.parse_single ("\"\\u00015\"") = some (json.value.vstr [1, 53]) ∧
    json.value.vstr ([1, 53]) ≠ json.value.vstr ([31]) :=
  ⟨fun _ => rfl, by decide, by decide⟩

/-- Claim C5 counterexample: `parse("2e-3")` evaluates to `8`, not the
claimed `1/8`: the exponent sign is parsed and then overwritten. -/
theorem claim_C5_exponent_counterexample :
    json.parse_single ("2e-3") = some (json.value.vnum 8) ∧
    (8 : ℚ) ≠ 1 / 8 :=
  ⟨by decide, by decide⟩

/-- Claim C5 (amended): the exponent is applied with `std::pow` as a
power of the combined mantissa, but its sign is parsed and then
overwritten by `exponent = parse_digits()` (json.cpp line 108), so the
effective exponent `E` is always the unsigned digit value:
`parse("2e3") = 8` and also `parse("2e-3") = 8` (not `1/8`). The general
clause is stated for fraction-free tokens whose binary64 evaluation is
exact, so that the rational model coincides with the program's `f64`
arithmetic: the integral mantissa and the power `I ^ E` are below
`2 ^ 53` (both are then exactly representable, and a correctly rounded
`pow` returns the exact integer; for `E ≥ 2 ^ 53` the bound forces
`I ≤ 1`, where `pow` is exact for any exponent), and `E < 2 ^ 63` keeps
the `u64`-to-`i64` conversion of the exponent value-preserving. -/
theorem claim_C5_exponent_power :
    (∀ (neg : Bool) (ds : List Nat) (sg : Option Bool) (es : List Nat),
      (∀ d ∈ ds, d < 10) → ds ≠ [] → (ds = [0] ∨ ds.headD 0 ≠ 0) →
      json.digitsVal ds < 2 ^ 53 →
      (∀ d ∈ es, d < 10) → es ≠ [] → json.digitsVal es < 2 ^ 63 →
      json.digitsVal ds ^ json.digitsVal es < 2 ^ 53 →
      json.parse_number (json.renderNum neg ds none (some (sg, es))) =
        some (((json.digitsVal ds : ℚ) ^ (json.digitsVal es : ℤ)) *
          (if neg then -1 else 1), [])) ∧
    json.parse_single ("2e3") = some (json.value.vnum 8) ∧
    json.parse_single ("2e-3") = some (json.value.vnum 8) := by
  refine ⟨?_, by decide, by decide⟩
  intro neg ds sg es hds hne hlead hdsb hesd hesne hesb _hpow
  have hdsE : json.digitsVal ds < json.E64 := lt_trans hdsb (by decide)
  have h := json.parse_number_render neg ds none (some (sg, es)) hds hne hlead
    hdsE (fun fs hfs => nomatch hfs)
    (fun sg2 es2 heq => by cases heq; exact ⟨hesne, hesd, hesb⟩)
  rw [h]
  norm_num [json.fracV, json.fracD, json.expV, json.E64]

/-- Claim C5 witness: the amended statement applied to the token `2e-3`,
i.e. `neg = false`, integral digits `[2]`, exponent sign `-` with
digits `[3]`. -/
theorem claim_C5_exponent_power_witness :
    json.parse_number (json.renderNum false [2] none (some (some true, [3]))) =
      some (((json.digitsVal [2] : ℚ) ^ (json.digitsVal [3] : ℤ)) *
        (if false then -1 else 1), []) :=
  claim_C5_exponent_power.1 false [2] (some true) [3] (by decide) (by decide)
    (by decide) (by decide) (by decide) (by decide) (by decide) (by decide)

/-- Claim C6 (code evaluated at the failing input): the escape renderer
applied to the non-printable code unit 0x1234 emits `\u0024`, not the
big-endian four-nibble `\u1234` the claim describes: the shift amounts
24/16/8/0 applied to a 16-bit value zero the first two digits and drop
nibbles 1 and 3, and each digit is printed in decimal. -/
theorem claim_C6_unicode_escape :
    json.is_printable 4660 = false ∧
    json.escape_char 4660 = json.bytes ("\\u0024") ∧
    json.bytes ("\\u0024") ≠ json.bytes ("\\u1234") :=
  ⟨by decide, by decide, by decide⟩

/-- Claim C9 (code evaluated at the failing input): `is_null` on the
value parsed from `null` returns `false` (the C++ body is
`valueless_by_exception()`, which never holds for a constructed value),
so the serializer falls through every kind test and raises
`std::bad_variant_access` (modelled as `none`) instead of printing the
text `null`. -/
theorem claim_C9_null_rendering :
    json.parse_single ("null") = some json.value.vnull ∧
    json.is_null json.value.vnull = false ∧
    (∀ fmtNum, json.serialize fmtNum json.value.vnull = none) ∧
    (∀ fmtNum, json.serialize fmtNum json.value.vnull ≠
      some (json.bytes ("null"))) :=
  ⟨by decide, rfl, fun _ => rfl, fun _ h => Option.noConfusion h⟩

/-- Claim C10 counterexample: the claimed divisor `10 ^ (d - 1)` is
computed in `u64` and wraps for `d ≥ 21` fractional digits: the token
`0.000000000000000000001` (`d = 21`, `F = 1`) is divided by
`10 ^ 20 % 2 ^ 64 = 7766279631452241920`, not by `10 ^ 20`, so the claim
`mantissa = integral + F / 10 ^ (d - 1)` is false at this input (the
two values differ by a factor of about `12.9`, far beyond any `f64`
rounding). -/
theorem claim_C10_fraction_divisor_counterexample :
    json.parse_single ("0.000000000000000000001") =
      some (json.value.vnum (1 / 7766279631452241920)) ∧
    (1 : ℚ) / 7766279631452241920 ≠ 1 / 10 ^ 20 :=
  ⟨by decide, by decide⟩

/-- Claim C10 (amended): for a token with `d ≥ 1` fractional digits of
value `F`, the parser divides `F` by `10 ^ (d - 1)` computed in `u64`,
which wraps modulo `2 ^ 64` from `d = 21` on; for `d ≤ 20` the divisor
is exactly `10 ^ (d - 1)` — one power of ten short of the standard
`F / 10 ^ d` — so `parse("0.5") = 5` and `parse("0.25") = 2.5`. The
general clause is stated for exponent-free tokens whose binary64
evaluation is exact, so that the rational model coincides with the
program's `f64` arithmetic: `I`, `F` and the divisor are below `2 ^ 53`
(the casts are exact; `10 ^ k` is exact for `k ≤ 22`),
`5 ^ (d - 1) ∣ F` makes the quotient `F / 10 ^ (d - 1)` the dyadic
rational `(F / 5 ^ (d - 1)) / 2 ^ (d - 1)`, and
`I * 2 ^ (d - 1) + F / 5 ^ (d - 1) < 2 ^ 53` makes the sum
representable, so the correctly rounded division and addition return the
exact values. -/
theorem claim_C10_fraction_divisor :
    (∀ (neg : Bool) (ds fs : List Nat),
      (∀ d ∈ ds, d < 10) → ds ≠ [] → (ds = [0] ∨ ds.headD 0 ≠ 0) →
      json.digitsVal ds < 2 ^ 53 →
      (∀ d ∈ fs, d < 10) → fs ≠ [] → fs.length ≤ 20 →
      json.digitsVal fs < 2 ^ 53 →
      5 ^ (fs.length - 1) ∣ json.digitsVal fs →
      json.digitsVal ds * 2 ^ (fs.length - 1) +
        json.digitsVal fs / 5 ^ (fs.length - 1) < 2 ^ 53 →
      json.parse_number (json.renderNum neg ds (some fs) none) =
        some (((json.digitsVal ds : ℚ) + (json.digitsVal fs : ℚ) /
            (10 : ℚ) ^ (fs.length - 1)) * (if neg then -1 else 1), [])) ∧
    json.parse_single ("0.5") = some (json.value.vnum 5) ∧
    json.parse_single ("0.25") = some (json.value.vnum (5 / 2)) := by
  refine ⟨?_, by decide, by decide⟩
  intro neg ds fs hds hne hlead hdsb hfds hfne hlen hfsb _hdvd _hsum
  have hdsE : json.digitsVal ds < json.E64 := lt_trans hdsb (by decide)
  have hfsE : json.digitsVal fs < json.E64 := lt_trans hfsb (by decide)
  have h := json.parse_number_render neg ds (some fs) none hds hne hlead hdsE
    (fun fs2 heq => by cases heq; exact ⟨hfne, hfds, hfsE⟩)
    (fun sg es heq => nomatch heq)
  have hmod : (10 : ℕ) ^ (fs.length - 1) % json.E64 = 10 ^ (fs.length - 1) :=
    Nat.mod_eq_of_lt (lt_of_le_of_lt
      (Nat.pow_le_pow_right (by omega) (by omega : fs.length - 1 ≤ 19))
      (by decide : (10 : ℕ) ^ 19 < json.E64))
  rw [h]
  simp only [json.fracV, json.fracD, json.expV, hmod, zpow_one]
  push_cast
  ring_nf

/-- Claim C10 witness: the amended general clause applied to the token
`0.25` (`neg = false`, integral digits `[0]`, fractional digits
`[2, 5]`). -/
theorem claim_C10_fraction_divisor_witness :
    json.parse_number (json.renderNum false [0] (some [2, 5]) none) =
      some (((json.digitsVal [0] : ℚ) + (json.digitsVal [2, 5] : ℚ) /
        (10 : ℚ) ^ (([2, 5] : List Nat).length - 1)) *
        (if false then -1 else 1), []) :=
  claim_C10_fraction_divisor.1 false [0] [2, 5] (by decide) (by decide)
    (by decide) (by decide) (by decide) (by decide) (by decide) (by decide)
    (by decide) (by decide)
